import Mathlib

/-!
Verification development for the geo-verification service.

The definitions below are a shallow embedding of the TypeScript
`VerificationManager` durable object (src/unnamed/part_002) together with
its helpers (`src/src/services/webhook.ts`, `src/src/utils/crypto.ts`,
`src/src/durable-objects/UserRateLimiter.ts`).  Durable-object storage is
modelled as association lists (one per logical key prefix:
`session:{id}`, `session_by_user:{userId}`, `friend:{userId}`,
`ratelimit:{userId}`), nondeterministic inputs (generated ids and codes,
the clock, GeoGuessr API responses) are passed as explicit parameters,
and outbound calls (webhook POSTs, `acceptFriendRequest`) are recorded
as an event trace.
-/

namespace GeoVerif

/-- Session record from src/unnamed/part_000 (`types.ts`).  Timestamps are
milliseconds since epoch, modelled as `Nat`. -/
structure Session where
  id : String
  userId : String
  code : String
  verified : Bool
  expiresAt : Nat
  createdAt : Nat
  callbackUrl : Option String
  deriving Repr, DecidableEq

/-- Token-bucket state (`RateLimitState`, src/unnamed/part_002 lines 16-19). -/
structure RateLimitState where
  tokens : Nat
  lastRefill : Nat
  deriving Repr, DecidableEq

/-- A chat message as consumed by `monitorChatMessages`
(src/unnamed/part_000, `ChatMessage`): only the fields the
verification logic looks at. -/
structure ChatMessage where
  sourceId : String
  textPayload : String
  deriving Repr, DecidableEq

/-- Observable side effects of the manager: a queued webhook delivery
(`sendSessionWebhook`, part_002 lines 290-300), an invocation of
`client.acceptFriendRequest`, or an outbound HTTP POST performed by
`sendWebhook` (webhook.ts). -/
inductive Event where
  | webhook (sessionId userId status : String)
  | acceptCall (userId : String)
  | post (url : String)
  deriving Repr, DecidableEq

/-! ### Association-list storage primitives -/

/-- Lookup in an association list (durable-object `storage.get`). -/
def getA {α : Type} : List (String × α) → String → Option α
  | [], _ => none
  | (k', v) :: rest, k => if k' = k then some v else getA rest k

/-- Insert-or-replace (durable-object `storage.put`). -/
def putA {α : Type} : List (String × α) → String → α → List (String × α)
  | [], k, v => [(k, v)]
  | (k', v') :: rest, k, v =>
      if k' = k then (k, v) :: rest else (k', v') :: putA rest k v

/-- Key removal (durable-object `storage.delete`). -/
def delA {α : Type} : List (String × α) → String → List (String × α)
  | [], _ => []
  | (k', v') :: rest, k =>
      if k' = k then delA rest k else (k', v') :: delA rest k

@[simp] theorem getA_nil {α : Type} (k : String) : getA ([] : List (String × α)) k = none := rfl

theorem getA_putA_self {α : Type} (l : List (String × α)) (k : String) (v : α) :
    getA (putA l k v) k = some v := by
  induction l with
  | nil => simp [getA, putA]
  | cons p rest ih =>
      obtain ⟨k', v'⟩ := p
      by_cases h : k' = k
      · simp [getA, putA, h]
      · simp [getA, putA, h, ih]

theorem getA_putA_ne {α : Type} (l : List (String × α)) (k k' : String) (v : α)
    (h : k ≠ k') : getA (putA l k v) k' = getA l k' := by
  induction l with
  | nil => simp [getA, putA, h]
  | cons p rest ih =>
      obtain ⟨k₀, v₀⟩ := p
      by_cases h0 : k₀ = k
      · subst h0
        simp [getA, putA, h]
      · simp [getA, putA, h0, ih]

theorem getA_delA_self {α : Type} (l : List (String × α)) (k : String) :
    getA (delA l k) k = none := by
  induction l with
  | nil => simp [delA]
  | cons p rest ih =>
      obtain ⟨k', v'⟩ := p
      by_cases h : k' = k
      · simp [delA, h, ih]
      · simp [delA, getA, h, ih]

theorem getA_delA_ne {α : Type} (l : List (String × α)) (k k' : String)
    (h : k ≠ k') : getA (delA l k) k' = getA l k' := by
  induction l with
  | nil => simp [delA]
  | cons p rest ih =>
      obtain ⟨k₀, v₀⟩ := p
      by_cases h0 : k₀ = k
      · subst h0
        simp [delA, getA, h, ih]
      · simp [delA, getA, h0, ih]

theorem getA_delA_none {α : Type} (l : List (String × α)) (k k' : String)
    (h : getA l k' = none) : getA (delA l k) k' = none := by
  by_cases hk : k = k'
  · subst hk; exact getA_delA_self l k
  · rw [getA_delA_ne l k k' hk]; exact h

/-- Membership with distinct keys pins down `getA`. -/
theorem getA_of_mem_nodup {α : Type} (l : List (String × α)) (k : String) (v : α)
    (hnd : (l.map Prod.fst).Nodup) (hmem : (k, v) ∈ l) : getA l k = some v := by
  induction l with
  | nil => cases hmem
  | cons p rest ih =>
      obtain ⟨k', v'⟩ := p
      simp only [List.map_cons, List.nodup_cons] at hnd
      rcases List.mem_cons.1 hmem with h | h
      · obtain ⟨hk, hv⟩ := Prod.ext_iff.1 h
        subst hk
        subst hv
        simp [getA]
      · have hne : k' ≠ k := by
          intro he
          exact hnd.1 (he ▸ (List.mem_map.2 ⟨(k, v), h, rfl⟩))
        simp [getA, hne, ih hnd.2 h]

/-! ### Storage -/

/-- The durable object's storage, split by key prefix
(part_002: `session:`, `session_by_user:`, `friend:`, `ratelimit:`). -/
structure Storage where
  sessions : List (String × Session)
  byUser : List (String × String)
  friends : List (String × Bool)
  ratelimit : List (String × RateLimitState)
  deriving Repr, DecidableEq

def emptyStorage : Storage := ⟨[], [], [], []⟩

/-! ### String helpers

JS `String.prototype.toUpperCase` and `String.prototype.includes`, modelled
character-wise over the underlying character list (the code only ever
compares ASCII hexadecimal codes). -/

/-- Character-wise uppercasing, the model of JS `toUpperCase()`. -/
def strUpper (s : String) : String := ⟨s.data.map Char.toUpper⟩

/-- True when `needle` occurs contiguously in `hay` (as lists). -/
def infixOf : List Char → List Char → Bool
  | n, [] => n.isEmpty
  | n, c :: cs => n.isPrefixOf (c :: cs) || infixOf n cs

/-- JS `hay.includes(needle)`. -/
def isSubstring (needle hay : String) : Bool := infixOf needle.data hay.data

/-! ### Rate limiter

`checkRateLimit` (src/unnamed/part_002 lines 157-182); the standalone
`UserRateLimiter.checkAndConsume` durable object
(src/src/durable-objects/UserRateLimiter.ts lines 35-72) runs the same
algorithm.  `maxTokens` is `RATE_LIMIT_PER_HOUR`, the refill interval is
one hour in milliseconds.  Note that on denial the (possibly refilled)
state is *not* written back, exactly as in the code. -/

def refillInterval : Nat := 60 * 60 * 1000

/-- One `checkRateLimit(userId)` call at time `now`.
Returns `(allowed, resetAt, new storage)`. -/
def checkRateLimit (maxTokens now : Nat) (st : Storage) (userId : String) :
    Bool × Nat × Storage :=
  let stored := getA st.ratelimit userId
  let state : RateLimitState :=
    match stored with
    | none => { tokens := maxTokens, lastRefill := now }
    | some s =>
        let tokensToAdd := ((now - s.lastRefill) / refillInterval) * maxTokens
        if 0 < tokensToAdd then
          { tokens := min maxTokens (s.tokens + tokensToAdd), lastRefill := now }
        else s
  let resetAt := state.lastRefill + refillInterval
  if state.tokens = 0 then (false, resetAt, st)
  else
    let newRl := putA st.ratelimit userId ⟨state.tokens - 1, state.lastRefill⟩
    (true, resetAt, { st with ratelimit := newRl })

/-! ### Session store operations -/

/-- Model of `deleteSessionInternal` (part_002 lines 133-143): deletes the session
record, the identity index and the friend-cache entry. -/
def deleteSessionInternal (st : Storage) (sessionId : String) : Storage :=
  match getA st.sessions sessionId with
  | none => st
  | some s =>
      { st with
        sessions := delA st.sessions sessionId
        byUser := delA st.byUser s.userId
        friends := delA st.friends s.userId }

/-- Model of `createSession` (part_002 lines 60-103).  The generated session id and
verification code, the clock and `CODE_EXPIRY_MINUTES` are passed in.
Returns the new storage, `some session` on success (or `none` when rate
limited) and the trace of webhook events queued by this call — the code
queues none: the superseded session is deleted by `deleteSessionInternal`
without any `sendSessionWebhook` call. -/
def createSession (maxTokens : Nat) (st : Storage) (userId : String)
    (callbackUrl : Option String) (newId code : String) (now expiryMinutes : Nat) :
    Storage × Option Session × List Event :=
  match checkRateLimit maxTokens now st userId with
  | (false, _, st') => (st', none, [])
  | (true, _, st') =>
      let st1 :=
        match getA st'.byUser userId with
        | some oldId => deleteSessionInternal st' oldId
        | none => st'
      let session : Session :=
        { id := newId, userId := userId, code := code, verified := false,
          expiresAt := now + expiryMinutes * 60 * 1000, createdAt := now,
          callbackUrl := callbackUrl }
      ({ st1 with
          sessions := putA st1.sessions newId session
          byUser := putA st1.byUser userId newId },
        some session, [])

/-! ### Reconciliation tick -/

/-- Model of `sendSessionWebhook` (part_002 lines 290-300): queues one webhook
delivery iff the session has a `callbackUrl`. -/
def sendSessionWebhook (s : Session) (status : String) : List Event :=
  match s.callbackUrl with
  | none => []
  | some _ => [Event.webhook s.id s.userId status]

/-- The snapshot partition taken at the start of `alarm()` (part_002 lines
185-197): verified sessions are skipped; unverified sessions are split
into active (`expiresAt > now`) and expired (`expiresAt ≤ now`). -/
def alarmPartition (st : Storage) (now : Nat) : List Session × List Session :=
  let all := st.sessions.map Prod.snd
  (all.filter (fun s => !s.verified && decide (now < s.expiresAt)),
   all.filter (fun s => !s.verified && decide (s.expiresAt ≤ now)))

/-- One iteration of the loop in `processPendingFriendRequests` (part_002
lines 221-233): skip requesters with no indexed session or with a
verified/expired session; otherwise call `client.acceptFriendRequest` and,
on success, cache the requester as a friend.  Lookups go to the batch
snapshot `st` taken before the loop, exactly as in the code. -/
def acceptStep (st : Storage) (now : Nat) (acceptOk : String → Bool)
    (acc : Storage × List Event) (uid : String) : Storage × List Event :=
  match getA st.byUser uid with
  | none => acc
  | some sid =>
      match getA st.sessions sid with
      | none => acc
      | some s =>
          if s.verified || decide (s.expiresAt < now) then acc
          else
            let evs := acc.2 ++ [Event.acceptCall uid]
            if acceptOk uid then
              ({ acc.1 with friends := putA acc.1.friends uid true }, evs)
            else (acc.1, evs)

/-- Model of `processPendingFriendRequests` (part_002 lines 210-234).  `pending` is
the list of requester ids returned by `client.getPendingFriendRequests()`,
`acceptOk` models the success of each `client.acceptFriendRequest` call. -/
def processPendingFriendRequests (st : Storage) (pending : List String)
    (now : Nat) (acceptOk : String → Bool) : Storage × List Event :=
  pending.foldl (acceptStep st now acceptOk) (st, [])

/-- The message test of `monitorChatMessages` (part_002 line 278):
`msg.textPayload && msg.textPayload.toUpperCase().includes(session.code)`.
The message source is not inspected. -/
def msgMatches (code : String) (m : ChatMessage) : Bool :=
  !m.textPayload.isEmpty && isSubstring code (strUpper m.textPayload)

/-- First matching message of a chat read, if any (the loop `break`s on
the first match). -/
def findCodeMsg (msgs : List ChatMessage) (code : String) : Option ChatMessage :=
  msgs.find? (msgMatches code)

/-- The friend status used by the chat scan (part_002 lines 240-263): the
cached `friend:{userId}` value if present, otherwise the value freshly
derived from `client.getAllFriendIds()` (which is also written back to the
cache before the scan loop). -/
def friendStatusOf (st : Storage) (allFriends : String → Bool) (uid : String) : Bool :=
  match getA st.friends uid with
  | some b => b
  | none => allFriends uid

/-- Whether the scan loop of `monitorChatMessages` verifies session `s`:
its friend status is true, the chat read succeeds, and some message text
(uppercased) contains the code. -/
def shouldVerify (fs : String → Bool) (chat : String → Option (List ChatMessage))
    (s : Session) : Bool :=
  fs s.userId &&
    (match chat s.userId with
     | none => false
     | some msgs => (findCodeMsg msgs s.code).isSome)

/-- One iteration of the scan loop of `monitorChatMessages` (part_002
lines 266-287): skip non-friends; a `null` chat read (HTTP 404) deletes
the cache entry; on the first matching message the session is stored with
`verified = true`, a "verified" webhook is queued, and the cache entry is
deleted. -/
def monitorStep (fs : String → Bool) (chat : String → Option (List ChatMessage))
    (acc : Storage × List Event) (s : Session) : Storage × List Event :=
  if fs s.userId then
    match chat s.userId with
    | none => ({ acc.1 with friends := delA acc.1.friends s.userId }, acc.2)
    | some msgs =>
        match findCodeMsg msgs s.code with
        | none => acc
        | some _ =>
            let s' := { s with verified := true }
            ({ acc.1 with
                sessions := putA acc.1.sessions s.id s'
                friends := delA acc.1.friends s.userId },
              acc.2 ++ sendSessionWebhook s' "verified")
  else acc

/-- Model of `monitorChatMessages` (part_002 lines 236-288) over the active
snapshot `sessions`.  `allFriends` models `client.getAllFriendIds()`
membership, `chat` models `client.readChatMessages` (with `none` for a
404).  The friend-status map is computed once, uncached entries are
written back, then each session is scanned. -/
def monitorChatMessages (st : Storage) (sessions : List Session)
    (allFriends : String → Bool) (chat : String → Option (List ChatMessage)) :
    Storage × List Event :=
  if sessions.isEmpty then (st, [])
  else
    let fs := friendStatusOf st allFriends
    let uncached := (sessions.map Session.userId).filter
        (fun uid => (getA st.friends uid).isNone)
    let st1 := uncached.foldl
        (fun acc uid => { acc with friends := putA acc.friends uid (allFriends uid) }) st
    sessions.foldl (monitorStep fs chat) (st1, [])

/-- Deletion of one expired session's three storage keys (part_002 lines
308-312, applied by the final batch `storage.delete`). -/
def expiryStep (acc : Storage) (s : Session) : Storage :=
  { acc with
    sessions := delA acc.sessions s.id
    byUser := delA acc.byUser s.userId
    friends := delA acc.friends s.userId }

/-- The "expired" webhooks queued by the loop of `handleExpiredSessions`,
in loop order. -/
def expiryEvents (expired : List Session) : List Event :=
  expired.foldl (fun evs s => evs ++ sendSessionWebhook s "expired") []

/-- Model of `handleExpiredSessions` (part_002 lines 302-317): for every expired
session queue an "expired" webhook (iff it has a callback) and delete its
three storage keys. -/
def handleExpiredSessions (st : Storage) (expired : List Session) :
    Storage × List Event :=
  if expired.isEmpty then (st, [])
  else (expired.foldl expiryStep st, expiryEvents expired)

/-- Number of webhook events for a given session id and status in a trace. -/
def countWh (evs : List Event) (sid status : String) : Nat :=
  evs.countP
    (fun e =>
      match e with
      | Event.webhook sid' _ status' => sid' == sid && status' == status
      | _ => false)

/-! ### Webhook dispatcher (src/src/services/webhook.ts) -/

/-- Outcome of the single `fetch` POST inside `sendWebhook`: an HTTP
response with a status code, or a thrown network/timeout error. -/
inductive FetchOutcome where
  | ok (status : Nat)
  | netError
  deriving Repr, DecidableEq

/-- Model of `sendWebhook` (webhook.ts lines 20-56): serializes the payload, issues
exactly one POST, returns `true` on a 2xx response (`response.ok`) and
`false` on any other status or on a thrown error; there is no retry and
no other effect.  The single attempted POST is recorded in the trace. -/
def sendWebhook (url : String) (outcome : FetchOutcome) : Bool × List Event :=
  match outcome with
  | FetchOutcome.ok status =>
      if 200 ≤ status ∧ status < 300 then (true, [Event.post url])
      else (false, [Event.post url])
  | FetchOutcome.netError => (false, [Event.post url])

/-! ### Verification code generation (src/src/utils/crypto.ts lines 1-8) -/

/-- Lowercase hexadecimal digit, as produced by JS `b.toString(16)`.
(The `% 16` makes the function total; callers only use digit values
below 16.) -/
def hexDigit (n : Nat) : Char := "0123456789abcdef".data.getD (n % 16) '0'

/-- Rendering of `b.toString(16).padStart(2, "0")` for a byte `b < 256`: the two
lowercase hex digits of `b`. -/
def byteToHexChars (b : Nat) : List Char := [hexDigit (b / 16), hexDigit (b % 16)]

/-- The `.map(...).join("")` step: concatenation of the per-byte hex
pairs. -/
def codeChars : List Nat → List Char
  | [] => []
  | b :: bs => byteToHexChars b ++ codeChars bs

/-- Model of `generateVerificationCode` (crypto.ts lines 1-8): three random bytes,
each rendered as two zero-padded lowercase hex digits, joined and
uppercased.  The random bytes are passed in. -/
def generateVerificationCode (bytes : List Nat) : String :=
  ⟨(codeChars bytes).map Char.toUpper⟩

/-! ### Concurrency structure of one tick (part_002 lines 184-208)

`alarm()` snapshots the session list, then runs

  `Promise.allSettled([processPendingFriendRequests(),
  monitorChatMessages(activeSessions),
  handleExpiredSessions(expiredSessions)])`

which starts all three phase promises at once; their suspension-point
steps may interleave in any order that preserves each phase's own program
order.  `Merge3` is exactly that set of interleavings. -/

/-- The three phases of a reconciliation tick. -/
inductive Phase where
  | friendAccept
  | chatScan
  | expiry
  deriving Repr, DecidableEq

/-- Relation `Merge3 xs ys zs t`: `t` is an interleaving of `xs`, `ys`, `zs` that
preserves the internal order of each. -/
inductive Merge3 {α : Type} : List α → List α → List α → List α → Prop where
  | nil : Merge3 [] [] [] []
  | c1 {xs ys zs t : List α} {a : α} :
      Merge3 xs ys zs t → Merge3 (a :: xs) ys zs (a :: t)
  | c2 {xs ys zs t : List α} {a : α} :
      Merge3 xs ys zs t → Merge3 xs (a :: ys) zs (a :: t)
  | c3 {xs ys zs t : List α} {a : α} :
      Merge3 xs ys zs t → Merge3 xs ys (a :: zs) (a :: t)

/-- Tag every step of a phase with its phase. -/
def tagPhase (p : Phase) (l : List String) : List (Phase × String) :=
  l.map (fun s => (p, s))

/-- The possible step interleavings of one `alarm()` tick whose three
phases would, run in isolation, perform the step sequences `p1`, `p2`,
`p3`: `Promise.allSettled` imposes no cross-phase ordering, so any merge
is possible. -/
def tickInterleavings (p1 p2 p3 : List String) (t : List (Phase × String)) : Prop :=
  Merge3 (tagPhase Phase.friendAccept p1) (tagPhase Phase.chatScan p2)
    (tagPhase Phase.expiry p3) t

def phaseRank : Phase → Nat
  | Phase.friendAccept => 0
  | Phase.chatScan => 1
  | Phase.expiry => 2

/-- A trace is phase-ordered when every friend-acceptance step precedes
every chat-scan step, which precedes every expiry step. -/
def PhaseOrderedTrace (t : List (Phase × String)) : Prop :=
  t.Pairwise (fun a b => phaseRank a.1 ≤ phaseRank b.1)

/-! ### Store invariants -/

/-- Every stored session is indexed: `session_by_user` maps its identity
back to its id. -/
def IndexComplete (st : Storage) : Prop :=
  ∀ id s, getA st.sessions id = some s → getA st.byUser s.userId = some id

/-- Every index entry points to a stored session of that identity (no
dangling index). -/
def IndexSound (st : Storage) : Prop :=
  ∀ u id, getA st.byUser u = some id →
    ∃ s, getA st.sessions id = some s ∧ s.userId = u

/-- Sessions are stored under their own id. -/
def KeyedById (st : Storage) : Prop :=
  ∀ id s, getA st.sessions id = some s → s.id = id

/-- The session-store invariant maintained by the manager. -/
def Inv (st : Storage) : Prop := IndexComplete st ∧ IndexSound st ∧ KeyedById st

theorem inv_empty : Inv emptyStorage := by
  refine ⟨?_, ?_, ?_⟩ <;> intro a b h <;> simp [emptyStorage, getA] at h

/-- The invariant immediately gives at-most-one-session-per-identity. -/
theorem inv_atMostOne (st : Storage) (hInv : Inv st) :
    ∀ id1 id2 s1 s2, getA st.sessions id1 = some s1 →
      getA st.sessions id2 = some s2 → s1.userId = s2.userId → id1 = id2 := by
  intro id1 id2 s1 s2 h1 h2 hu
  have e1 := hInv.1 id1 s1 h1
  have e2 := hInv.1 id2 s2 h2
  rw [hu] at e1
  rw [e1] at e2
  exact Option.some.inj e2

/-! ## C9: webhook delivery is attempted at most once -/

/-- C9: `sendWebhook` issues exactly one outbound POST per call; it
returns `true` precisely when that single response has a 2xx status, and
returns `false` (without retrying, with no further events) on any other
status or on a network/timeout error. -/
theorem sendWebhook_at_most_once (url : String) (outcome : FetchOutcome) :
    (sendWebhook url outcome).2 = [Event.post url] ∧
      ((sendWebhook url outcome).1 = true ↔
        ∃ s, outcome = FetchOutcome.ok s ∧ 200 ≤ s ∧ s < 300) := by
  cases outcome with
  | ok s => by_cases h : 200 ≤ s ∧ s < 300 <;> simp [sendWebhook, h]
  | netError => simp [sendWebhook]

/-! ## C10: verification codes are six uppercase hex characters -/

theorem codeChars_length (bytes : List Nat) :
    (codeChars bytes).length = 2 * bytes.length := by
  induction bytes with
  | nil => simp [codeChars]
  | cons b bs ih =>
      simp [codeChars, byteToHexChars, ih]
      ring

theorem mem_codeChars (bytes : List Nat) (c : Char) (h : c ∈ codeChars bytes) :
    ∃ m, m < 16 ∧ c = hexDigit m := by
  induction bytes with
  | nil => cases h
  | cons b bs ih =>
      simp only [codeChars, byteToHexChars, List.cons_append, List.mem_cons,
        List.nil_append] at h
      rcases h with h | h | h
      · refine ⟨b / 16 % 16, Nat.mod_lt _ (by norm_num), ?_⟩
        have h16 : b / 16 % 16 % 16 = b / 16 % 16 := by omega
        rw [h]
        simp only [hexDigit, h16]
      · refine ⟨b % 16 % 16, Nat.mod_lt _ (by norm_num), ?_⟩
        have h16 : b % 16 % 16 % 16 = b % 16 % 16 := by omega
        rw [h]
        simp only [hexDigit, h16]
      · exact ih h

theorem hexUpper_mem : ∀ m, m < 16 →
    Char.toUpper (hexDigit m) ∈ ("0123456789ABCDEF").data := by decide

theorem hexUpper_idem : ∀ m, m < 16 →
    Char.toUpper (Char.toUpper (hexDigit m)) = Char.toUpper (hexDigit m) := by decide

theorem map_idem_of_mem {α : Type} (f : α → α) :
    ∀ l : List α, (∀ c ∈ l, f (f c) = f c) → (l.map f).map f = l.map f
  | [], _ => rfl
  | c :: cs, h => by
      simp only [List.map_cons, List.cons.injEq]
      exact ⟨h c (List.mem_cons_self c cs),
        map_idem_of_mem f cs (fun x hx => h x (List.mem_cons_of_mem c hx))⟩

/-- C10: with three random bytes, `generateVerificationCode` yields a
string of exactly six characters, each an uppercase hexadecimal digit
(`0-9`, `A-F`); the code is therefore invariant under uppercasing, which
makes the chat scanner's test — uppercased message text contains the
stored code — the same test as comparing both sides uppercased. -/
theorem generateVerificationCode_hex6 (bytes : List Nat)
    (h3 : bytes.length = 3) (_hb : ∀ b ∈ bytes, b < 256) :
    (generateVerificationCode bytes).length = 6 ∧
      (∀ ch ∈ (generateVerificationCode bytes).data,
        ch ∈ ("0123456789ABCDEF").data) ∧
      strUpper (generateVerificationCode bytes) = generateVerificationCode bytes ∧
      (∀ text : String,
        isSubstring (generateVerificationCode bytes) (strUpper text) =
          isSubstring (strUpper (generateVerificationCode bytes)) (strUpper text)) := by
  have hmem : ∀ ch ∈ (generateVerificationCode bytes).data,
      ch ∈ ("0123456789ABCDEF").data := by
    intro ch hch
    simp only [generateVerificationCode, List.mem_map] at hch
    obtain ⟨c, hc, rfl⟩ := hch
    obtain ⟨m, hm, rfl⟩ := mem_codeChars bytes c hc
    exact hexUpper_mem m hm
  have hupper : strUpper (generateVerificationCode bytes) =
      generateVerificationCode bytes := by
    simp only [generateVerificationCode, strUpper]
    congr 1
    apply map_idem_of_mem
    intro c hc
    obtain ⟨m, hm, rfl⟩ := mem_codeChars bytes c hc
    exact hexUpper_idem m hm
  refine ⟨?_, hmem, hupper, ?_⟩
  · simp only [generateVerificationCode, String.length, List.length_map]
    rw [codeChars_length, h3]
  · intro text
    rw [hupper]

/-- A witness for C10 at the concrete byte vector `[0, 171, 255]`
(code `"00ABFF"`). -/
theorem generateVerificationCode_hex6_witness :
    ([0, 171, 255] : List Nat).length = 3 ∧ (∀ b ∈ ([0, 171, 255] : List Nat), b < 256) ∧
    ((generateVerificationCode [0, 171, 255]).length = 6 ∧
      (∀ ch ∈ (generateVerificationCode [0, 171, 255]).data,
        ch ∈ ("0123456789ABCDEF").data) ∧
      strUpper (generateVerificationCode [0, 171, 255]) =
        generateVerificationCode [0, 171, 255] ∧
      (∀ text : String,
        isSubstring (generateVerificationCode [0, 171, 255]) (strUpper text) =
          isSubstring (strUpper (generateVerificationCode [0, 171, 255]))
            (strUpper text))) :=
  ⟨rfl, by decide, generateVerificationCode_hex6 [0, 171, 255] rfl (by decide)⟩

/-! ## C3: window-quantized token bucket -/

/-- Modelled from the claim's words (the spec, §4.2): window-quantized
refill — `windowsElapsed = floor((now − lastRefill) / refillWindow)`; if
at least one window elapsed, `tokens := min(maxTokens, tokens +
windowsElapsed × maxTokens)` and `lastRefill := now`. -/
def refillSpec (maxTokens W now : Nat) (s : RateLimitState) : RateLimitState :=
  let windowsElapsed := (now - s.lastRefill) / W
  if 1 ≤ windowsElapsed then
    { tokens := min maxTokens (s.tokens + windowsElapsed * maxTokens),
      lastRefill := now }
  else s

/-- Modelled from the claim's words: refill first, then deny with
`resetAt = lastRefill + refillWindow` exactly when `tokens = 0`,
otherwise consume one token and allow. -/
def checkSpec (maxTokens W now : Nat) (s : RateLimitState) :
    Bool × Nat × RateLimitState :=
  let s' := refillSpec maxTokens W now s
  if s'.tokens = 0 then (false, s'.lastRefill + W, s')
  else (true, s'.lastRefill + W, { s' with tokens := s'.tokens - 1 })

/-- Sequence of `checkRateLimit` calls at the given times, threading the
storage; returns the `(allowed, resetAt)` answers and the final
storage. -/
def runChecks (maxTokens : Nat) (uid : String) : List Nat → Storage → List (Bool × Nat) × Storage
  | [], st => ([], st)
  | t :: ts, st =>
      let r := checkRateLimit maxTokens t st uid
      let rest := runChecks maxTokens uid ts r.2.2
      ((r.1, r.2.1) :: rest.1, rest.2)

theorem runChecks_append (m : Nat) (uid : String) (ts1 ts2 : List Nat) (st : Storage) :
    runChecks m uid (ts1 ++ ts2) st =
      ((runChecks m uid ts1 st).1 ++ (runChecks m uid ts2 (runChecks m uid ts1 st).2).1,
        (runChecks m uid ts2 (runChecks m uid ts1 st).2).2) := by
  induction ts1 generalizing st with
  | nil => simp [runChecks]
  | cons t ts ih => simp [runChecks, ih]

/-- For an already-stored bucket, `checkRateLimit` computes exactly the
spec's refill-then-decide step and persists the consumed state only on
allowance. -/
theorem checkRateLimit_eq_spec (maxTokens now : Nat) (hmax : 1 ≤ maxTokens)
    (st : Storage) (uid : String) (s : RateLimitState)
    (hst : getA st.ratelimit uid = some s) :
    checkRateLimit maxTokens now st uid =
      ((checkSpec maxTokens refillInterval now s).1,
        (checkSpec maxTokens refillInterval now s).2.1,
        if (checkSpec maxTokens refillInterval now s).1 = true then
          { st with ratelimit := putA st.ratelimit uid (checkSpec maxTokens refillInterval now s).2.2 }
        else st) := by
  unfold checkRateLimit checkSpec refillSpec
  simp only [hst]
  by_cases hwe : 1 ≤ (now - s.lastRefill) / refillInterval
  · have hta : 0 < (now - s.lastRefill) / refillInterval * maxTokens :=
      Nat.mul_pos (by omega) (by omega)
    simp only [if_pos hwe, if_pos hta]
    by_cases hz : min maxTokens (s.tokens + (now - s.lastRefill) / refillInterval * maxTokens) = 0
    · simp [hz]
    · simp [hz]
  · have hta : ¬ 0 < (now - s.lastRefill) / refillInterval * maxTokens := by
      intro h
      apply hwe
      rcases Nat.eq_zero_or_pos ((now - s.lastRefill) / refillInterval) with h0 | h0
      · rw [h0] at h
        simp at h
      · omega
    simp only [if_neg hwe, if_neg hta]
    by_cases hz : s.tokens = 0
    · simp [hz]
    · simp [hz]

/-- Scenario of C3: with `maxTokens = 3` and a one-hour window, a fresh
identity gets three allowed checks, an immediate fourth is denied with
`resetAt` at the window boundary, and once the window has elapsed exactly
three more succeed before the next denial. -/
theorem runChecks_scenario (t1 : Nat) (ht1 : 3600000 ≤ t1) :
    (runChecks 3 "u" [0, 0, 0, 0, t1, t1, t1, t1] emptyStorage).1 =
      [(true, 3600000), (true, 3600000), (true, 3600000), (false, 3600000),
        (true, t1 + 3600000), (true, t1 + 3600000), (true, t1 + 3600000),
        (false, t1 + 3600000)] := by
  have h4 : runChecks 3 "u" [0, 0, 0, 0] emptyStorage =
      ([(true, 3600000), (true, 3600000), (true, 3600000), (false, 3600000)],
        ⟨[], [], [], [("u", ⟨0, 0⟩)]⟩) := by decide
  have hdiv : 1 ≤ t1 / 3600000 := (Nat.one_le_div_iff (by norm_num)).2 ht1
  have h5 : checkRateLimit 3 t1 ⟨[], [], [], [("u", ⟨0, 0⟩)]⟩ "u" =
      (true, t1 + 3600000, ⟨[], [], [], [("u", ⟨2, t1⟩)]⟩) := by
    have hpos : 0 < t1 / 3600000 * 3 := by omega
    have hmin : min 3 (0 + t1 / 3600000 * 3) = 3 := by omega
    have hne : ¬ t1 / 3600000 = 0 := by omega
    have hmin2 : 3 ⊓ (t1 / 3600000 * 3) = 3 := by omega
    unfold checkRateLimit
    simp [getA, putA, refillInterval, hpos, hmin, hne, hmin2]
  have hstep : ∀ tok : Nat, tok ≠ 0 →
      checkRateLimit 3 t1 ⟨[], [], [], [("u", ⟨tok, t1⟩)]⟩ "u" =
        (true, t1 + 3600000, ⟨[], [], [], [("u", ⟨tok - 1, t1⟩)]⟩) := by
    intro tok htok
    unfold checkRateLimit
    simp [getA, putA, refillInterval, htok]
  have hden : checkRateLimit 3 t1 ⟨[], [], [], [("u", ⟨0, t1⟩)]⟩ "u" =
      (false, t1 + 3600000, ⟨[], [], [], [("u", ⟨0, t1⟩)]⟩) := by
    unfold checkRateLimit
    simp [getA, refillInterval]
  have hlist : ([0, 0, 0, 0, t1, t1, t1, t1] : List Nat) =
      [0, 0, 0, 0] ++ [t1, t1, t1, t1] := rfl
  rw [hlist, runChecks_append, h4]
  simp only [runChecks, h5, hstep 2 (by norm_num), hstep 1 (by norm_num), hden]
  simp

/-- C3: `checkRateLimit` first applies the window-quantized refill of the
spec (`windowsElapsed = floor((now − lastRefill)/refillWindow)`; when at
least one window elapsed, `tokens := min(maxTokens, tokens +
windowsElapsed·maxTokens)` and `lastRefill := now`), then denies with
`resetAt = lastRefill + refillWindow` exactly when the (refilled) token
count is zero, and otherwise consumes one token and allows; moreover with
`maxTokens = 3` and a one-hour window a fresh identity gets three allowed
checks, a fourth immediate check is denied with `resetAt` at the window
boundary, and after the window elapses exactly three more checks
succeed. -/
theorem checkRateLimit_window_quantized
    (maxTokens now : Nat) (st : Storage) (uid : String) (s : RateLimitState)
    (hmax : 1 ≤ maxTokens) (hst : getA st.ratelimit uid = some s)
    (t1 : Nat) (ht1 : 3600000 ≤ t1) :
    (checkRateLimit maxTokens now st uid =
      ((checkSpec maxTokens refillInterval now s).1,
        (checkSpec maxTokens refillInterval now s).2.1,
        if (checkSpec maxTokens refillInterval now s).1 = true then
          { st with ratelimit := putA st.ratelimit uid (checkSpec maxTokens refillInterval now s).2.2 }
        else st)) ∧
    (runChecks 3 "u" [0, 0, 0, 0, t1, t1, t1, t1] emptyStorage).1 =
      [(true, 3600000), (true, 3600000), (true, 3600000), (false, 3600000),
        (true, t1 + 3600000), (true, t1 + 3600000), (true, t1 + 3600000),
        (false, t1 + 3600000)] :=
  ⟨checkRateLimit_eq_spec maxTokens now hmax st uid s hst,
    runChecks_scenario t1 ht1⟩

/-- A witness for C3 at `maxTokens = 3`, a stored bucket `⟨3, 0⟩` and
`t1 = 3600000`. -/
theorem checkRateLimit_window_quantized_witness :
    1 ≤ 3 ∧
    getA (Storage.ratelimit ⟨[], [], [], [("u", ⟨3, 0⟩)]⟩) "u" = some ⟨3, 0⟩ ∧
    (3600000 : Nat) ≤ 3600000 ∧
    ((checkRateLimit 3 7 ⟨[], [], [], [("u", ⟨3, 0⟩)]⟩ "u" =
      ((checkSpec 3 refillInterval 7 ⟨3, 0⟩).1,
        (checkSpec 3 refillInterval 7 ⟨3, 0⟩).2.1,
        if (checkSpec 3 refillInterval 7 ⟨3, 0⟩).1 = true then
          { (⟨[], [], [], [("u", ⟨3, 0⟩)]⟩ : Storage) with ratelimit := putA (Storage.ratelimit ⟨[], [], [], [("u", ⟨3, 0⟩)]⟩) "u" (checkSpec 3 refillInterval 7 ⟨3, 0⟩).2.2 }
        else ⟨[], [], [], [("u", ⟨3, 0⟩)]⟩)) ∧
    (runChecks 3 "u" [0, 0, 0, 0, 3600000, 3600000, 3600000, 3600000] emptyStorage).1 =
      [(true, 3600000), (true, 3600000), (true, 3600000), (false, 3600000),
        (true, 3600000 + 3600000), (true, 3600000 + 3600000),
        (true, 3600000 + 3600000), (false, 3600000 + 3600000)]) :=
  ⟨by norm_num, by decide, by norm_num,
    checkRateLimit_window_quantized 3 7 ⟨[], [], [], [("u", ⟨3, 0⟩)]⟩ "u" ⟨3, 0⟩
      (by norm_num) (by decide) 3600000 (by norm_num)⟩

/-! ## C2 / C4: session supersession -/

/-- Rate-limit checks touch only the `ratelimit:` keyspace. -/
theorem checkRateLimit_only_ratelimit (m now : Nat) (st : Storage) (uid : String) :
    ∃ rl, (checkRateLimit m now st uid).2.2 = { st with ratelimit := rl } := by
  simp only [checkRateLimit]
  split
  · exact ⟨st.ratelimit, rfl⟩
  · exact ⟨_, rfl⟩

/-- Deleting a session (with its index and cache entries) preserves the
store invariant. -/
theorem deleteSessionInternal_inv (st : Storage) (sid : String) (hInv : Inv st) :
    Inv (deleteSessionInternal st sid) := by
  unfold deleteSessionInternal
  cases hs : getA st.sessions sid with
  | none => exact hInv
  | some s =>
      refine ⟨?_, ?_, ?_⟩
      · intro id' s' h'
        by_cases he : sid = id'
        · rw [← he, getA_delA_self] at h'
          cases h'
        · rw [getA_delA_ne _ _ _ he] at h'
          have hbu := hInv.1 id' s' h'
          by_cases hu : s.userId = s'.userId
          · exfalso
            have h2 := hInv.1 sid s hs
            rw [hu] at h2
            rw [h2] at hbu
            exact he (Option.some.inj hbu)
          · rw [getA_delA_ne _ _ _ hu]
            exact hbu
      · intro u id h'
        by_cases hu : s.userId = u
        · rw [← hu, getA_delA_self] at h'
          cases h'
        · rw [getA_delA_ne _ _ _ hu] at h'
          obtain ⟨s'', hs'', hu''⟩ := hInv.2.1 u id h'
          by_cases he : sid = id
          · exfalso
            rw [← he, hs] at hs''
            apply hu
            rw [← hu'', Option.some.inj hs'']
          · exact ⟨s'', by rw [getA_delA_ne _ _ _ he]; exact hs'', hu''⟩
      · intro id' s' h'
        by_cases he : sid = id'
        · rw [← he, getA_delA_self] at h'
          cases h'
        · rw [getA_delA_ne _ _ _ he] at h'
          exact hInv.2.2 id' s' h'

/-- Installing a fresh session under a fresh id on a store whose index
has no entry for the identity preserves the invariant, and the new
session becomes the only one mapped to that identity. -/
theorem putSession_inv (st1 : Storage) (uid newId : String) (sess : Session)
    (hInv1 : Inv st1) (hbuNone : getA st1.byUser uid = none)
    (hfresh1 : getA st1.sessions newId = none)
    (huid : sess.userId = uid) (hid : sess.id = newId) :
    Inv { st1 with sessions := putA st1.sessions newId sess,
                   byUser := putA st1.byUser uid newId } ∧
    (∀ id s', getA (putA st1.sessions newId sess) id = some s' →
        s'.userId = uid → id = newId) := by
  have hcomplete : ∀ id' s', getA (putA st1.sessions newId sess) id' = some s' →
      getA (putA st1.byUser uid newId) s'.userId = some id' := by
    intro id' s' h'
    by_cases he : newId = id'
    · rw [← he, getA_putA_self] at h'
      have : s' = sess := (Option.some.inj h').symm
      subst this
      rw [huid, ← he, getA_putA_self]
    · rw [getA_putA_ne _ _ _ _ he] at h'
      have hb := hInv1.1 id' s' h'
      by_cases hu : uid = s'.userId
      · exfalso
        rw [← hu, hbuNone] at hb
        cases hb
      · rw [getA_putA_ne _ _ _ _ hu]
        exact hb
  refine ⟨⟨hcomplete, ?_, ?_⟩, ?_⟩
  · intro u id h'
    by_cases hu : uid = u
    · rw [← hu, getA_putA_self] at h'
      have hidn : id = newId := (Option.some.inj h').symm
      subst hidn
      exact ⟨sess, by rw [getA_putA_self], by rw [huid, hu]⟩
    · rw [getA_putA_ne _ _ _ _ hu] at h'
      obtain ⟨s'', hs'', hu''⟩ := hInv1.2.1 u id h'
      by_cases he : newId = id
      · exfalso
        rw [← he, hfresh1] at hs''
        cases hs''
      · exact ⟨s'', by rw [getA_putA_ne _ _ _ _ he]; exact hs'', hu''⟩
  · intro id' s' h'
    by_cases he : newId = id'
    · rw [← he, getA_putA_self] at h'
      rw [← Option.some.inj h', hid, he]
    · rw [getA_putA_ne _ _ _ _ he] at h'
      exact hInv1.2.2 id' s' h'
  · intro id s' h' hu'
    have hb := hcomplete id s' h'
    rw [hu'] at hb
    rw [getA_putA_self] at hb
    exact (Option.some.inj hb).symm

/-- Decomposition of every successful `createSession` run: the produced
session is the freshly built record, no webhook event is queued, and the
final store is the superseded-and-cleaned store `st1` with the new
session installed and indexed. -/
theorem createSession_success_core
    (maxTokens : Nat) (st : Storage) (uid : String) (cb : Option String)
    (newId code : String) (now expiry : Nat) (sess : Session)
    (hInv : Inv st) (hfresh : getA st.sessions newId = none)
    (hres : (createSession maxTokens st uid cb newId code now expiry).2.1 = some sess) :
    sess = ⟨newId, uid, code, false, now + expiry * 60 * 1000, now, cb⟩ ∧
    (createSession maxTokens st uid cb newId code now expiry).2.2 = [] ∧
    ∃ st1 : Storage,
      (createSession maxTokens st uid cb newId code now expiry).1 =
        { st1 with sessions := putA st1.sessions newId sess,
                   byUser := putA st1.byUser uid newId } ∧
      Inv st1 ∧ getA st1.byUser uid = none ∧ getA st1.sessions newId = none ∧
      (∀ oldId, getA st.byUser uid = some oldId →
        getA st1.friends uid = none ∧ getA st1.sessions oldId = none) := by
  obtain ⟨rl, hrl⟩ := checkRateLimit_only_ratelimit maxTokens now st uid
  rcases hcr : checkRateLimit maxTokens now st uid with ⟨b, ra, st'⟩
  rw [hcr] at hrl
  simp only at hrl
  subst hrl
  cases b with
  | false =>
      simp only [createSession, hcr] at hres
      exact Option.noConfusion hres
  | true =>
      simp only [createSession, hcr] at hres ⊢
      cases hbu : getA st.byUser uid with
      | none =>
          simp only [hbu] at hres ⊢
          have hsess := Option.some.inj hres
          refine ⟨hsess.symm, by trivial,
            { st with ratelimit := rl }, ?_, hInv, hbu, hfresh, ?_⟩
          · rw [hsess]
          · intro oldId hold
            exact Option.noConfusion hold
      | some oldId =>
          simp only [hbu] at hres ⊢
          obtain ⟨oldS, holdS, holdU⟩ := hInv.2.1 uid oldId hbu
          have hdsi : deleteSessionInternal { st with ratelimit := rl } oldId =
              { st with sessions := delA st.sessions oldId,
                        byUser := delA st.byUser uid,
                        friends := delA st.friends uid,
                        ratelimit := rl } := by
            unfold deleteSessionInternal
            simp only [holdS, holdU]
          have hInv1 : Inv (deleteSessionInternal { st with ratelimit := rl } oldId) :=
            deleteSessionInternal_inv _ oldId hInv
          rw [hdsi] at hInv1
          have hsess := Option.some.inj hres
          rw [hdsi, hsess]
          refine ⟨rfl, by trivial, _, rfl, hInv1, ?_, ?_, ?_⟩
          · exact getA_delA_self _ _
          · exact getA_delA_none _ _ _ hfresh
          · intro oldId' hold'
            have : oldId' = oldId := (Option.some.inj hold').symm
            subst this
            exact ⟨getA_delA_self _ _, getA_delA_self _ _⟩

/-- C2: the store invariant yields at most one session (hence at most one
active session) per identity at any instant, and a completed
`createSession` preserves the invariant while leaving the newly created
session as the only session mapped to the requested identity. -/
theorem createSession_single_active
    (maxTokens : Nat) (st : Storage) (uid : String) (cb : Option String)
    (newId code : String) (now expiry : Nat) (sess : Session)
    (hInv : Inv st) (hfresh : getA st.sessions newId = none)
    (hres : (createSession maxTokens st uid cb newId code now expiry).2.1 = some sess) :
    (∀ id1 id2 s1 s2, getA st.sessions id1 = some s1 →
        getA st.sessions id2 = some s2 → s1.userId = s2.userId → id1 = id2) ∧
    Inv (createSession maxTokens st uid cb newId code now expiry).1 ∧
    sess.userId = uid ∧
    getA (createSession maxTokens st uid cb newId code now expiry).1.sessions newId = some sess ∧
    (∀ id s', getA (createSession maxTokens st uid cb newId code now expiry).1.sessions id = some s' →
        s'.userId = uid → id = newId) := by
  obtain ⟨hsess, -, st1, hst1, hInv1, hbu1, hfresh1, -⟩ :=
    createSession_success_core maxTokens st uid cb newId code now expiry sess hInv hfresh hres
  have hput := putSession_inv st1 uid newId sess hInv1 hbu1 hfresh1
    (by rw [hsess]) (by rw [hsess])
  refine ⟨inv_atMostOne st hInv, ?_, by rw [hsess], ?_, ?_⟩
  · rw [hst1]
    exact hput.1
  · rw [hst1]
    exact getA_putA_self _ _ _
  · intro id s' h' hu'
    rw [hst1] at h'
    exact hput.2 id s' h' hu'

/-- A witness for C2: creating a session in the empty store. -/
theorem createSession_single_active_witness :
    Inv emptyStorage ∧ getA emptyStorage.sessions "s1" = none ∧
    ((∀ id1 id2 s1 s2, getA emptyStorage.sessions id1 = some s1 →
        getA emptyStorage.sessions id2 = some s2 → s1.userId = s2.userId → id1 = id2) ∧
    Inv (createSession 3 emptyStorage "u" none "s1" "ABC" 0 5).1 ∧
    Session.userId ⟨"s1", "u", "ABC", false, 300000, 0, none⟩ = "u" ∧
    getA (createSession 3 emptyStorage "u" none "s1" "ABC" 0 5).1.sessions "s1" =
      some ⟨"s1", "u", "ABC", false, 300000, 0, none⟩ ∧
    (∀ id s', getA (createSession 3 emptyStorage "u" none "s1" "ABC" 0 5).1.sessions id = some s' →
        s'.userId = "u" → id = "s1")) :=
  ⟨inv_empty, rfl,
    createSession_single_active 3 emptyStorage "u" none "s1" "ABC" 0 5
      ⟨"s1", "u", "ABC", false, 300000, 0, none⟩ inv_empty rfl (by decide)⟩

/-- C4 (amended): when `create` is called for an identity that already
has a session, the old session is superseded — its record, identity index
and friend-cache entry are removed and the identity is re-indexed to the
new session — but no webhook is queued for the superseded session, even
when it has a `callbackUrl`: `createSession` deletes it via
`deleteSessionInternal` without any `sendSessionWebhook` call. -/
theorem createSession_supersede_no_webhook
    (maxTokens : Nat) (st : Storage) (uid : String) (cb : Option String)
    (newId code : String) (now expiry : Nat) (sess : Session) (oldId : String)
    (hInv : Inv st) (hfresh : getA st.sessions newId = none)
    (hold : getA st.byUser uid = some oldId)
    (hres : (createSession maxTokens st uid cb newId code now expiry).2.1 = some sess) :
    (createSession maxTokens st uid cb newId code now expiry).2.2 = [] ∧
    getA (createSession maxTokens st uid cb newId code now expiry).1.sessions oldId = none ∧
    getA (createSession maxTokens st uid cb newId code now expiry).1.byUser uid = some newId ∧
    getA (createSession maxTokens st uid cb newId code now expiry).1.friends uid = none := by
  obtain ⟨-, hevs, st1, hst1, -, -, -, hsup⟩ :=
    createSession_success_core maxTokens st uid cb newId code now expiry sess hInv hfresh hres
  obtain ⟨hfr, hso⟩ := hsup oldId hold
  have hne : newId ≠ oldId := by
    intro he
    obtain ⟨oldS, holdS, -⟩ := hInv.2.1 uid oldId hold
    rw [he, holdS] at hfresh
    exact Option.noConfusion hfresh
  refine ⟨hevs, ?_, ?_, ?_⟩
  · rw [hst1]
    show getA (putA st1.sessions newId sess) oldId = none
    rw [getA_putA_ne _ _ _ _ hne]
    exact hso
  · rw [hst1]
    exact getA_putA_self _ _ _
  · rw [hst1]
    exact hfr

/-- The store used for the C4 theorems: one active session `"sOld"` with
a callback URL, owned by identity `"u"`. -/
def c4Store : Storage :=
  ⟨[("sOld", ⟨"sOld", "u", "C0FFEE", false, 1000000, 0, some "http://cb"⟩)],
   [("u", "sOld")], [], []⟩

/-- C4 counterexample: the superseded session `"sOld"` is active (not
expired at `now = 5`) and has a callback URL, yet `createSession` queues
zero webhook events — not the claimed exactly-one "expired" webhook. -/
theorem createSession_supersede_counterexample :
    getA c4Store.sessions "sOld" =
      some ⟨"sOld", "u", "C0FFEE", false, 1000000, 0, some "http://cb"⟩ ∧
    (createSession 3 c4Store "u" (some "http://cb2") "sNew" "DDDDDD" 5 5).2.2 = [] ∧
    countWh (createSession 3 c4Store "u" (some "http://cb2") "sNew" "DDDDDD" 5 5).2.2
      "sOld" "expired" = 0 ∧
    getA (createSession 3 c4Store "u" (some "http://cb2") "sNew" "DDDDDD" 5 5).1.sessions
      "sOld" = none := by decide

/-- A witness for C4 (amended) on the same concrete store. -/
theorem createSession_supersede_no_webhook_witness :
    Inv c4Store ∧ getA c4Store.sessions "sNew" = none ∧
    getA c4Store.byUser "u" = some "sOld" ∧
    ((createSession 3 c4Store "u" (some "http://cb2") "sNew" "DDDDDD" 5 5).2.2 = [] ∧
    getA (createSession 3 c4Store "u" (some "http://cb2") "sNew" "DDDDDD" 5 5).1.sessions
      "sOld" = none ∧
    getA (createSession 3 c4Store "u" (some "http://cb2") "sNew" "DDDDDD" 5 5).1.byUser
      "u" = some "sNew" ∧
    getA (createSession 3 c4Store "u" (some "http://cb2") "sNew" "DDDDDD" 5 5).1.friends
      "u" = none) := by
  have hInv : Inv c4Store := by
    refine ⟨?_, ?_, ?_⟩
    · intro id s h
      simp only [c4Store, getA] at h
      split at h
      · rename_i hk
        rw [← Option.some.inj h, ← hk]
        decide
      · exact Option.noConfusion h
    · intro u id h
      simp only [c4Store, getA] at h
      split at h
      · rename_i hk
        refine ⟨⟨"sOld", "u", "C0FFEE", false, 1000000, 0, some "http://cb"⟩, ?_, by rw [← hk]⟩
        rw [← Option.some.inj h]
        decide
      · exact Option.noConfusion h
    · intro id s h
      simp only [c4Store, getA] at h
      split at h
      · rename_i hk
        rw [← Option.some.inj h, ← hk]
      · exact Option.noConfusion h
  exact ⟨hInv, rfl, by decide,
    createSession_supersede_no_webhook 3 c4Store "u" (some "http://cb2") "sNew" "DDDDDD"
      5 5 ⟨"sNew", "u", "DDDDDD", false, 300005, 5, some "http://cb2"⟩ "sOld"
      hInv rfl (by decide) (by decide)⟩

/-! ## C6 / C7: friend-request acceptance -/

/-- The accept call (if any) that `acceptStep` makes for one pending
requester: present exactly when the requester has an indexed, unverified,
unexpired session.  Note the friend cache is not inspected. -/
def acceptEvent (st : Storage) (now : Nat) (uid : String) : Option Event :=
  match getA st.byUser uid with
  | none => none
  | some sid =>
      match getA st.sessions sid with
      | none => none
      | some s =>
          if s.verified || decide (s.expiresAt < now) then none
          else some (Event.acceptCall uid)

/-- The accept calls of a whole `processPendingFriendRequests` run, in
pending-list order. -/
def pendingAccepts (st : Storage) (now : Nat) (pending : List String) : List Event :=
  pending.filterMap (acceptEvent st now)

theorem acceptStep_snd (st : Storage) (now : Nat) (acceptOk : String → Bool)
    (acc : Storage × List Event) (uid : String) :
    (acceptStep st now acceptOk acc uid).2 = acc.2 ++ (acceptEvent st now uid).toList := by
  unfold acceptStep acceptEvent
  split
  · simp
  · split
    · simp
    · split
      · rename_i hcond
        simp [hcond]
      · rename_i hcond
        by_cases hok : acceptOk uid = true <;> simp [hcond, hok]

theorem processPending_foldl_snd (st : Storage) (now : Nat)
    (acceptOk : String → Bool) :
    ∀ (pending : List String) (acc : Storage × List Event),
      (pending.foldl (acceptStep st now acceptOk) acc).2 =
        acc.2 ++ pendingAccepts st now pending
  | [], acc => by simp [pendingAccepts]
  | uid :: rest, acc => by
      rw [List.foldl_cons, processPending_foldl_snd st now acceptOk rest _,
        acceptStep_snd]
      simp only [pendingAccepts, List.filterMap_cons]
      cases acceptEvent st now uid <;> simp

/-- The event trace of `processPendingFriendRequests` is exactly
`pendingAccepts`. -/
theorem processPending_events (st : Storage) (pending : List String)
    (now : Nat) (acceptOk : String → Bool) :
    (processPendingFriendRequests st pending now acceptOk).2 =
      pendingAccepts st now pending := by
  rw [processPendingFriendRequests, processPending_foldl_snd st now acceptOk pending (st, [])]
  simp

/-- C6: an `acceptFriendRequest` call is made for a requester only when
that requester has an active (unverified, unexpired) session in the
store: no session, no acceptance. -/
theorem acceptCall_requires_active_session (st : Storage) (pending : List String)
    (now : Nat) (acceptOk : String → Bool) (uid : String)
    (h : Event.acceptCall uid ∈ (processPendingFriendRequests st pending now acceptOk).2) :
    ∃ sid s, getA st.byUser uid = some sid ∧ getA st.sessions sid = some s ∧
      s.verified = false ∧ now ≤ s.expiresAt := by
  rw [processPending_events] at h
  simp only [pendingAccepts, List.mem_filterMap] at h
  obtain ⟨uid', _, hf⟩ := h
  unfold acceptEvent at hf
  cases hbu : getA st.byUser uid' with
  | none =>
      simp only [hbu] at hf
      exact Option.noConfusion hf
  | some sid =>
      simp only [hbu] at hf
      cases hs : getA st.sessions sid with
      | none =>
          simp only [hs] at hf
          exact Option.noConfusion hf
      | some s =>
          simp only [hs] at hf
          split at hf
          · exact Option.noConfusion hf
          · rename_i hcond
            have huid : uid' = uid := by
              have := Option.some.inj hf
              cases this
              rfl
            subst huid
            simp only [Bool.or_eq_true, decide_eq_true_eq, not_or,
              Bool.not_eq_true] at hcond
            exact ⟨sid, s, hbu, hs, hcond.1, by omega⟩

/-- A session's accept call has its own requester id: `acceptEvent st now u`
is `none` or `some (acceptCall u)`. -/
theorem acceptEvent_shape (st : Storage) (now : Nat) (u : String) :
    acceptEvent st now u = none ∨
      acceptEvent st now u = some (Event.acceptCall u) := by
  unfold acceptEvent
  split
  · exact Or.inl rfl
  · split
    · exact Or.inl rfl
    · split
      · exact Or.inl rfl
      · exact Or.inr rfl

theorem countP_pendingAccepts_zero (st : Storage) (now : Nat) (uid : String) :
    ∀ pending : List String, uid ∉ pending →
      (pendingAccepts st now pending).countP
        (fun e => e == Event.acceptCall uid) = 0
  | [], _ => by simp [pendingAccepts]
  | u :: rest, h => by
      have hu : u ≠ uid := fun he => h (he ▸ List.mem_cons_self u rest)
      have hrest : uid ∉ rest := fun hr => h (List.mem_cons_of_mem u hr)
      simp only [pendingAccepts, List.filterMap_cons]
      rcases acceptEvent_shape st now u with he | he
      · rw [he]
        exact countP_pendingAccepts_zero st now uid rest hrest
      · rw [he]
        rw [List.countP_cons]
        have : (Event.acceptCall u == Event.acceptCall uid) = false := by
          simp [hu]
        rw [this]
        have h0 := countP_pendingAccepts_zero st now uid rest hrest
        simp only [pendingAccepts] at h0
        simp [h0]

theorem countP_pendingAccepts_le_one (st : Storage) (now : Nat) (uid : String) :
    ∀ pending : List String, pending.Nodup →
      (pendingAccepts st now pending).countP
        (fun e => e == Event.acceptCall uid) ≤ 1
  | [], _ => by simp [pendingAccepts]
  | u :: rest, hnd => by
      have hnotin : u ∉ rest := (List.nodup_cons.1 hnd).1
      have hndrest : rest.Nodup := (List.nodup_cons.1 hnd).2
      simp only [pendingAccepts, List.filterMap_cons]
      rcases acceptEvent_shape st now u with he | he
      · rw [he]
        exact countP_pendingAccepts_le_one st now uid rest hndrest
      · rw [he, List.countP_cons]
        by_cases huid : u = uid
        · subst huid
          have h0 : (pendingAccepts st now rest).countP
              (fun e => e == Event.acceptCall u) = 0 :=
            countP_pendingAccepts_zero st now u rest hnotin
          simp only [pendingAccepts] at h0
          rw [h0]
          simp
        · have : (Event.acceptCall u == Event.acceptCall uid) = false := by
            simp [huid]
          rw [this]
          simpa using countP_pendingAccepts_le_one st now uid rest hndrest

/-- C7 (amended): within one tick, a pending requester with an active
session gets at most one `acceptFriendRequest` call (one per occurrence
in the pending list); but the friend cache is never consulted — the
accept events of a tick are identical for every possible friend-cache
content (and for every accept outcome), so a request still listed as
pending on a later tick is accepted again.  Cross-tick deduplication
relies solely on the platform removing accepted requests from the
pending list. -/
theorem processPending_no_cache_dedup (st : Storage) (f : List (String × Bool))
    (pending : List String) (now : Nat) (acceptOk acceptOk' : String → Bool)
    (uid : String) (hnd : pending.Nodup) :
    (processPendingFriendRequests { st with friends := f } pending now acceptOk).2 =
      (processPendingFriendRequests st pending now acceptOk').2 ∧
    (processPendingFriendRequests st pending now acceptOk).2.countP
        (fun e => e == Event.acceptCall uid) ≤ 1 := by
  constructor
  · rw [processPending_events, processPending_events]
    rfl
  · rw [processPending_events]
    exact countP_pendingAccepts_le_one st now uid pending hnd

/-- A witness for C7 (amended) at a one-element pending list. -/
theorem processPending_no_cache_dedup_witness :
    ([("u1" : String)] : List String).Nodup ∧
    ((processPendingFriendRequests
        ⟨[("s1", ⟨"s1", "u1", "ABC123", false, 1000, 0, none⟩)], [("u1", "s1")],
          [("u1", true)], []⟩ ["u1"] 5 (fun _ => true)).2 =
      (processPendingFriendRequests
        ⟨[("s1", ⟨"s1", "u1", "ABC123", false, 1000, 0, none⟩)], [("u1", "s1")],
          [], []⟩ ["u1"] 5 (fun _ => false)).2 ∧
    (processPendingFriendRequests
        ⟨[("s1", ⟨"s1", "u1", "ABC123", false, 1000, 0, none⟩)], [("u1", "s1")],
          [], []⟩ ["u1"] 5 (fun _ => true)).2.countP
        (fun e => e == Event.acceptCall "u1") ≤ 1) :=
  ⟨by decide,
    processPending_no_cache_dedup
      ⟨[("s1", ⟨"s1", "u1", "ABC123", false, 1000, 0, none⟩)], [("u1", "s1")],
        [], []⟩ [("u1", true)] ["u1"] 5 (fun _ => true) (fun _ => false) "u1"
      (by decide)⟩

/-- The store used to refute the claimed cache-based deduplication: one
active session for `"u1"`. -/
def c7Store : Storage :=
  ⟨[("s1", ⟨"s1", "u1", "ABC123", false, 1000, 0, none⟩)], [("u1", "s1")], [], []⟩

/-- C7 counterexample: after a first tick accepts `"u1"` and caches
`friend:u1 = true`, a second tick whose pending list still contains
`"u1"` issues a second `acceptFriendRequest` call — the cache entry does
not suppress it, contradicting "once the friend cache marks the identity
as accepted, no duplicate acceptFriendRequest call is made". -/
theorem processPending_duplicate_accept_counterexample :
    getA (processPendingFriendRequests c7Store ["u1"] 0 (fun _ => true)).1.friends "u1"
        = some true ∧
    (processPendingFriendRequests c7Store ["u1"] 0 (fun _ => true)).2
        = [Event.acceptCall "u1"] ∧
    (processPendingFriendRequests
        (processPendingFriendRequests c7Store ["u1"] 0 (fun _ => true)).1
        ["u1"] 0 (fun _ => true)).2 = [Event.acceptCall "u1"] := by decide

/-- A witness for C6: in a store holding one active session for `"u1"`,
the tick accepts `"u1"`'s pending request, and the promised session
exists. -/
theorem acceptCall_requires_active_session_witness :
    Event.acceptCall "u1" ∈
      (processPendingFriendRequests
        ⟨[("s1", ⟨"s1", "u1", "ABC123", false, 1000, 0, none⟩)],
         [("u1", "s1")], [], []⟩ ["u1"] 5 (fun _ => true)).2 ∧
    ∃ sid s,
      getA (Storage.byUser ⟨[("s1", ⟨"s1", "u1", "ABC123", false, 1000, 0, none⟩)],
        [("u1", "s1")], [], []⟩) "u1" = some sid ∧
      getA (Storage.sessions ⟨[("s1", ⟨"s1", "u1", "ABC123", false, 1000, 0, none⟩)],
        [("u1", "s1")], [], []⟩) sid = some s ∧
      s.verified = false ∧ 5 ≤ s.expiresAt := by
  refine ⟨by decide, ?_⟩
  exact acceptCall_requires_active_session _ ["u1"] 5 (fun _ => true) "u1" (by decide)

/-! ## C8: expiry sweep -/

theorem foldl_expiryStep_sessions_none :
    ∀ (l : List Session) (st0 : Storage) (k : String),
      getA st0.sessions k = none → getA (l.foldl expiryStep st0).sessions k = none := by
  intro l
  induction l with
  | nil =>
      intro st0 k h
      simpa using h
  | cons s rest ih =>
      intro st0 k h
      rw [List.foldl_cons]
      refine ih _ k ?_
      show getA (delA st0.sessions s.id) k = none
      exact getA_delA_none _ _ _ h

theorem foldl_expiryStep_byUser_none :
    ∀ (l : List Session) (st0 : Storage) (k : String),
      getA st0.byUser k = none → getA (l.foldl expiryStep st0).byUser k = none := by
  intro l
  induction l with
  | nil =>
      intro st0 k h
      simpa using h
  | cons s rest ih =>
      intro st0 k h
      rw [List.foldl_cons]
      refine ih _ k ?_
      show getA (delA st0.byUser s.userId) k = none
      exact getA_delA_none _ _ _ h

theorem foldl_expiryStep_friends_none :
    ∀ (l : List Session) (st0 : Storage) (k : String),
      getA st0.friends k = none → getA (l.foldl expiryStep st0).friends k = none := by
  intro l
  induction l with
  | nil =>
      intro st0 k h
      simpa using h
  | cons s rest ih =>
      intro st0 k h
      rw [List.foldl_cons]
      refine ih _ k ?_
      show getA (delA st0.friends s.userId) k = none
      exact getA_delA_none _ _ _ h

/-- After the sweep's deletion fold, every swept session's three keys are
gone. -/
theorem foldl_expiryStep_clears :
    ∀ (l : List Session) (st0 : Storage) (s : Session), s ∈ l →
      getA (l.foldl expiryStep st0).sessions s.id = none ∧
      getA (l.foldl expiryStep st0).byUser s.userId = none ∧
      getA (l.foldl expiryStep st0).friends s.userId = none := by
  intro l
  induction l with
  | nil =>
      intro _ _ h
      cases h
  | cons a rest ih =>
      intro st0 s hs
      rw [List.foldl_cons]
      rcases List.mem_cons.1 hs with h | h
      · subst h
        refine ⟨?_, ?_, ?_⟩
        · apply foldl_expiryStep_sessions_none
          show getA (delA st0.sessions s.id) s.id = none
          exact getA_delA_self _ _
        · apply foldl_expiryStep_byUser_none
          show getA (delA st0.byUser s.userId) s.userId = none
          exact getA_delA_self _ _
        · apply foldl_expiryStep_friends_none
          show getA (delA st0.friends s.userId) s.userId = none
          exact getA_delA_self _ _
      · exact ih _ s h

theorem foldl_events_acc :
    ∀ (l : List Session) (evs0 : List Event),
      l.foldl (fun evs s => evs ++ sendSessionWebhook s "expired") evs0 =
        evs0 ++ expiryEvents l := by
  intro l
  induction l with
  | nil =>
      intro evs0
      simp [expiryEvents]
  | cons s rest ih =>
      intro evs0
      rw [List.foldl_cons, ih]
      conv_rhs => rw [expiryEvents, List.foldl_cons, ih]
      simp

theorem expiryEvents_cons (s : Session) (l : List Session) :
    expiryEvents (s :: l) = sendSessionWebhook s "expired" ++ expiryEvents l := by
  rw [expiryEvents, List.foldl_cons, foldl_events_acc]
  simp

theorem countWh_append (a b : List Event) (sid status : String) :
    countWh (a ++ b) sid status = countWh a sid status + countWh b sid status :=
  List.countP_append _ _ _

theorem countWh_ssw_self (s : Session) (status : String) :
    countWh (sendSessionWebhook s status) s.id status =
      if s.callbackUrl.isSome then 1 else 0 := by
  unfold sendSessionWebhook countWh
  cases s.callbackUrl <;> simp

theorem countWh_ssw_ne (s : Session) (sid status status' : String) (h : s.id ≠ sid) :
    countWh (sendSessionWebhook s status') sid status = 0 := by
  unfold sendSessionWebhook countWh
  cases s.callbackUrl <;> simp [h]

theorem countWh_expiryEvents_notmem (sid : String) :
    ∀ l : List Session, sid ∉ l.map Session.id →
      countWh (expiryEvents l) sid "expired" = 0 := by
  intro l
  induction l with
  | nil =>
      intro _
      simp [expiryEvents, countWh]
  | cons s rest ih =>
      intro h
      have hne : s.id ≠ sid := by
        intro he
        exact h (he ▸ List.mem_map.2 ⟨s, List.mem_cons_self s rest, rfl⟩)
      have hrest : sid ∉ rest.map Session.id := by
        intro hr
        exact h (List.mem_cons_of_mem _ hr)
      rw [expiryEvents_cons, countWh_append, countWh_ssw_ne s sid _ _ hne, ih hrest]

/-- Each swept session with a callback gets exactly one "expired" webhook
event; a session without a callback gets none. -/
theorem countWh_expiryEvents :
    ∀ l : List Session, (l.map Session.id).Nodup → ∀ s : Session, s ∈ l →
      countWh (expiryEvents l) s.id "expired" =
        if s.callbackUrl.isSome then 1 else 0 := by
  intro l
  induction l with
  | nil =>
      intro _ _ h
      cases h
  | cons a rest ih =>
      intro hnd s hs
      simp only [List.map_cons, List.nodup_cons] at hnd
      rw [expiryEvents_cons, countWh_append]
      rcases List.mem_cons.1 hs with h | h
      · subst h
        rw [countWh_ssw_self, countWh_expiryEvents_notmem s.id rest hnd.1]
        simp
      · have hne : a.id ≠ s.id := by
          intro he
          exact hnd.1 (he ▸ List.mem_map.2 ⟨s, h, rfl⟩)
        rw [countWh_ssw_ne a s.id _ _ hne, ih hnd.2 s h]
        simp

theorem values_ids_eq_keys (l : List (String × Session))
    (hkeym : ∀ p ∈ l, Session.id p.2 = p.1) :
    (l.map Prod.snd).map Session.id = l.map Prod.fst := by
  induction l with
  | nil => rfl
  | cons p rest ih =>
      simp only [List.map_cons, List.cons.injEq]
      exact ⟨hkeym p (List.mem_cons_self _ _),
        ih (fun q hq => hkeym q (List.mem_cons_of_mem _ hq))⟩

theorem expired_ids_nodup (st : Storage) (now : Nat)
    (hnd : (st.sessions.map Prod.fst).Nodup)
    (hkeym : ∀ p ∈ st.sessions, Session.id p.2 = p.1) :
    ((alarmPartition st now).2.map Session.id).Nodup := by
  have hall : (st.sessions.map Prod.snd).map Session.id = st.sessions.map Prod.fst :=
    values_ids_eq_keys st.sessions hkeym
  have hsub : List.Sublist (alarmPartition st now).2 (st.sessions.map Prod.snd) := by
    simp only [alarmPartition]
    exact List.filter_sublist _
  have : List.Sublist ((alarmPartition st now).2.map Session.id)
      ((st.sessions.map Prod.snd).map Session.id) := hsub.map _
  rw [hall] at this
  exact List.Nodup.sublist this hnd

/-- C8: in the tick's expiry sweep, every unverified session whose
`expiresAt` has passed is removed from the store together with its
identity index and friend-cache entry, and exactly one "expired" webhook
is queued for it if it has a `callbackUrl` — zero if it does not. -/
theorem handleExpired_removes_and_notifies
    (st : Storage) (now : Nat) (s : Session)
    (hnd : (st.sessions.map Prod.fst).Nodup)
    (hkeym : ∀ p ∈ st.sessions, Session.id p.2 = p.1)
    (hmem : s ∈ st.sessions.map Prod.snd)
    (hunv : s.verified = false) (hexp : s.expiresAt ≤ now) :
    getA (handleExpiredSessions st (alarmPartition st now).2).1.sessions s.id = none ∧
    getA (handleExpiredSessions st (alarmPartition st now).2).1.byUser s.userId = none ∧
    getA (handleExpiredSessions st (alarmPartition st now).2).1.friends s.userId = none ∧
    countWh (handleExpiredSessions st (alarmPartition st now).2).2 s.id "expired" =
      (if s.callbackUrl.isSome then 1 else 0) := by
  have hsmem : s ∈ (alarmPartition st now).2 := by
    simp only [alarmPartition]
    exact List.mem_filter.2 ⟨hmem, by simp [hunv, hexp]⟩
  have hne : (alarmPartition st now).2 ≠ [] := List.ne_nil_of_mem hsmem
  have hempty : (alarmPartition st now).2.isEmpty = false := by
    cases hl : (alarmPartition st now).2 with
    | nil => exact absurd hl hne
    | cons a as => rfl
  simp only [handleExpiredSessions, hempty, Bool.false_eq_true, if_false]
  obtain ⟨h1, h2, h3⟩ := foldl_expiryStep_clears (alarmPartition st now).2 st s hsmem
  exact ⟨h1, h2, h3,
    countWh_expiryEvents (alarmPartition st now).2
      (expired_ids_nodup st now hnd hkeym) s hsmem⟩

/-- A witness for C8: one expired session with a callback URL is swept
and yields exactly one "expired" webhook. -/
theorem handleExpired_removes_and_notifies_witness :
    ((Storage.sessions ⟨[("s1", ⟨"s1", "u1", "ABC123", false, 10, 0, some "http://cb"⟩)],
        [("u1", "s1")], [("u1", true)], []⟩).map Prod.fst).Nodup ∧
    (⟨"s1", "u1", "ABC123", false, 10, 0, some "http://cb"⟩ : Session).verified = false ∧
    (⟨"s1", "u1", "ABC123", false, 10, 0, some "http://cb"⟩ : Session).expiresAt ≤ 10 ∧
    (getA (handleExpiredSessions
        ⟨[("s1", ⟨"s1", "u1", "ABC123", false, 10, 0, some "http://cb"⟩)],
          [("u1", "s1")], [("u1", true)], []⟩
        (alarmPartition ⟨[("s1", ⟨"s1", "u1", "ABC123", false, 10, 0, some "http://cb"⟩)],
          [("u1", "s1")], [("u1", true)], []⟩ 10).2).1.sessions "s1" = none ∧
    getA (handleExpiredSessions
        ⟨[("s1", ⟨"s1", "u1", "ABC123", false, 10, 0, some "http://cb"⟩)],
          [("u1", "s1")], [("u1", true)], []⟩
        (alarmPartition ⟨[("s1", ⟨"s1", "u1", "ABC123", false, 10, 0, some "http://cb"⟩)],
          [("u1", "s1")], [("u1", true)], []⟩ 10).2).1.byUser "u1" = none ∧
    getA (handleExpiredSessions
        ⟨[("s1", ⟨"s1", "u1", "ABC123", false, 10, 0, some "http://cb"⟩)],
          [("u1", "s1")], [("u1", true)], []⟩
        (alarmPartition ⟨[("s1", ⟨"s1", "u1", "ABC123", false, 10, 0, some "http://cb"⟩)],
          [("u1", "s1")], [("u1", true)], []⟩ 10).2).1.friends "u1" = none ∧
    countWh (handleExpiredSessions
        ⟨[("s1", ⟨"s1", "u1", "ABC123", false, 10, 0, some "http://cb"⟩)],
          [("u1", "s1")], [("u1", true)], []⟩
        (alarmPartition ⟨[("s1", ⟨"s1", "u1", "ABC123", false, 10, 0, some "http://cb"⟩)],
          [("u1", "s1")], [("u1", true)], []⟩ 10).2).2 "s1" "expired" =
      (if (some "http://cb" : Option String).isSome then 1 else 0)) :=
  ⟨by decide, rfl, by norm_num,
    handleExpired_removes_and_notifies
      ⟨[("s1", ⟨"s1", "u1", "ABC123", false, 10, 0, some "http://cb"⟩)],
        [("u1", "s1")], [("u1", true)], []⟩ 10
      ⟨"s1", "u1", "ABC123", false, 10, 0, some "http://cb"⟩
      (by decide) (by decide) (by decide) rfl (by norm_num)⟩

/-! ## C5: tick phase ordering -/

theorem merge3_nil_nil {α : Type} : ∀ zs : List α, Merge3 [] [] zs zs := by
  intro zs
  induction zs with
  | nil => exact Merge3.nil
  | cons z zs ih => exact Merge3.c3 ih

theorem merge3_nil {α : Type} : ∀ ys zs : List α, Merge3 [] ys zs (ys ++ zs) := by
  intro ys zs
  induction ys with
  | nil => exact merge3_nil_nil zs
  | cons y ys ih => exact Merge3.c2 ih

/-- Running the three phases to completion one after the other is one of
the possible interleavings. -/
theorem merge3_append {α : Type} : ∀ xs ys zs : List α, Merge3 xs ys zs (xs ++ ys ++ zs) := by
  intro xs ys zs
  induction xs with
  | nil => exact merge3_nil ys zs
  | cons x xs ih => exact Merge3.c1 ih

theorem mem_tagPhase_fst {p : Phase} {l : List String} {x : Phase × String}
    (h : x ∈ tagPhase p l) : x.1 = p := by
  obtain ⟨s, -, rfl⟩ := List.mem_map.1 h
  rfl

theorem pairwise_tagPhase (p : Phase) (l : List String) :
    (tagPhase p l).Pairwise (fun a b => phaseRank a.1 ≤ phaseRank b.1) := by
  unfold tagPhase
  induction l with
  | nil => exact List.Pairwise.nil
  | cons s rest ih =>
      refine List.Pairwise.cons ?_ ih
      intro b hb
      obtain ⟨s', -, rfl⟩ := List.mem_map.1 hb
      exact le_refl _

/-- The fully sequential execution is phase-ordered. -/
theorem seqTrace_ordered (p1 p2 p3 : List String) :
    PhaseOrderedTrace (tagPhase Phase.friendAccept p1 ++ tagPhase Phase.chatScan p2 ++
      tagPhase Phase.expiry p3) := by
  unfold PhaseOrderedTrace
  rw [List.pairwise_append]
  refine ⟨?_, pairwise_tagPhase _ _, ?_⟩
  · rw [List.pairwise_append]
    refine ⟨pairwise_tagPhase _ _, pairwise_tagPhase _ _, ?_⟩
    intro a ha b hb
    rw [mem_tagPhase_fst ha, mem_tagPhase_fst hb]
    decide
  · intro a ha b hb
    rw [mem_tagPhase_fst hb]
    rcases List.mem_append.1 ha with h | h
    · rw [mem_tagPhase_fst h]
      decide
    · rw [mem_tagPhase_fst h]
      decide

/-- Step sequence of the friend-acceptance phase for a tick with one
active session `session:s1` of identity `u1` and a pending request from
`u1` (part_002 lines 210-234). -/
def p1Steps : List String :=
  ["net getPendingFriendRequests", "storage.get session_by_user:u1",
   "storage.get session:s1", "net acceptFriendRequest u1", "storage.put friend:u1"]

/-- Step sequence of the chat-monitoring phase for the same tick
(part_002 lines 236-288). -/
def p2Steps : List String :=
  ["storage.get friend:u1", "net readChatMessages u1",
   "storage.put session:s1", "storage.delete friend:u1"]

/-- Step sequence of the expiry phase for the same tick: no expired
sessions, so `handleExpiredSessions` returns immediately (part_002 lines
302-303). -/
def p3Steps : List String := []

/-- An interleaving the `Promise.allSettled` launch admits in which the
chat scan reads the friend cache before the acceptance phase has done
anything at all. -/
def badTrace : List (Phase × String) :=
  (Phase.chatScan, "storage.get friend:u1") ::
    (tagPhase Phase.friendAccept p1Steps ++
      tagPhase Phase.chatScan
        ["net readChatMessages u1", "storage.put session:s1", "storage.delete friend:u1"])

theorem badTrace_interleaving :
    tickInterleavings p1Steps p2Steps p3Steps badTrace := by
  unfold tickInterleavings badTrace p1Steps p2Steps p3Steps tagPhase
  simp only [List.map_cons, List.map_nil, List.cons_append, List.nil_append]
  exact Merge3.c2 (Merge3.c1 (Merge3.c1 (Merge3.c1 (Merge3.c1 (Merge3.c1
    (Merge3.c2 (Merge3.c2 (Merge3.c2 Merge3.nil))))))))

theorem badTrace_not_ordered : ¬ PhaseOrderedTrace badTrace := by
  intro h
  rw [PhaseOrderedTrace, badTrace] at h
  have h1 := (List.pairwise_cons.1 h).1 (Phase.friendAccept, "net getPendingFriendRequests")
  have hmem : (Phase.friendAccept, "net getPendingFriendRequests") ∈
      tagPhase Phase.friendAccept p1Steps ++ tagPhase Phase.chatScan
        ["net readChatMessages u1", "storage.put session:s1", "storage.delete friend:u1"] := by
    apply List.mem_append.2
    exact Or.inl (by simp [tagPhase, p1Steps])
  have h2 := h1 hmem
  simp [phaseRank] at h2

/-- C5 counterexample: `alarm()` launches the three phases with
`Promise.allSettled`, so every merge of their step sequences is a
possible tick behaviour; `badTrace` is such a merge in which a chat-scan
step (the friend-cache read) precedes every friend-acceptance step, so
the phases do not execute in the claimed strict order and an acceptance
in phase 1 is not necessarily visible to phase 2 of the same tick. -/
theorem alarm_phase_order_counterexample :
    tickInterleavings p1Steps p2Steps p3Steps badTrace ∧ ¬ PhaseOrderedTrace badTrace :=
  ⟨badTrace_interleaving, badTrace_not_ordered⟩

/-- C5 (amended): the three phases of a tick are launched concurrently by
`Promise.allSettled`; every order-preserving merge of the three step
sequences is a possible tick behaviour.  Sequential, phase-ordered
execution is one possible behaviour, but it is not guaranteed: for the
concrete one-session tick there is also a valid interleaving that is not
phase-ordered (in which the chat scan reads the friend cache before
friend-request acceptance wrote it). -/
theorem alarm_phases_concurrent (p1 p2 p3 : List String) :
    tickInterleavings p1 p2 p3
      (tagPhase Phase.friendAccept p1 ++ tagPhase Phase.chatScan p2 ++
        tagPhase Phase.expiry p3) ∧
    PhaseOrderedTrace
      (tagPhase Phase.friendAccept p1 ++ tagPhase Phase.chatScan p2 ++
        tagPhase Phase.expiry p3) ∧
    ∃ t, tickInterleavings p1Steps p2Steps p3Steps t ∧ ¬ PhaseOrderedTrace t :=
  ⟨merge3_append _ _ _, seqTrace_ordered p1 p2 p3,
    ⟨badTrace, badTrace_interleaving, badTrace_not_ordered⟩⟩

/-! ## C1: chat monitoring and the verified flip -/

theorem monitorStep_sessions_ne (fs : String → Bool)
    (chat : String → Option (List ChatMessage)) (acc : Storage × List Event)
    (s : Session) (k : String) (hk : s.id ≠ k) :
    getA (monitorStep fs chat acc s).1.sessions k = getA acc.1.sessions k := by
  unfold monitorStep
  by_cases hf : fs s.userId = true
  · simp only [hf, if_true]
    split
    · rfl
    · split
      · rfl
      · show getA (putA acc.1.sessions s.id _) k = getA acc.1.sessions k
        exact getA_putA_ne _ _ _ _ hk
  · simp [hf]

theorem monitorStep_sessions_self (fs : String → Bool)
    (chat : String → Option (List ChatMessage)) (acc : Storage × List Event)
    (s : Session) :
    getA (monitorStep fs chat acc s).1.sessions s.id =
      (if shouldVerify fs chat s then some { s with verified := true }
       else getA acc.1.sessions s.id) := by
  unfold monitorStep shouldVerify
  by_cases hf : fs s.userId = true
  · simp only [hf, if_true, Bool.true_and]
    split
    · rfl
    · rename_i msgs hc
      split
      · rename_i hm
        simp [hm]
      · rename_i m hm
        simp only [hm, Option.isSome_some, if_true]
        exact getA_putA_self _ _ _
  · simp [hf]

theorem monitorStep_events (fs : String → Bool)
    (chat : String → Option (List ChatMessage)) (acc : Storage × List Event)
    (s : Session) :
    (monitorStep fs chat acc s).2 =
      acc.2 ++ (if shouldVerify fs chat s then
        sendSessionWebhook { s with verified := true } "verified" else []) := by
  unfold monitorStep shouldVerify
  by_cases hf : fs s.userId = true
  · simp only [hf, if_true, Bool.true_and]
    split
    · simp
    · rename_i msgs hc
      split
      · rename_i hm
        simp [hm]
      · rename_i m hm
        simp [hm]
  · simp [hf]

theorem monitorFold_sessions_notmem (fs : String → Bool)
    (chat : String → Option (List ChatMessage)) :
    ∀ (l : List Session) (acc : Storage × List Event) (k : String),
      k ∉ l.map Session.id →
      getA ((l.foldl (monitorStep fs chat) acc)).1.sessions k = getA acc.1.sessions k := by
  intro l
  induction l with
  | nil =>
      intro acc k _
      rfl
  | cons a rest ih =>
      intro acc k hk
      have h1 : a.id ≠ k := by
        intro he
        exact hk (he ▸ List.mem_map.2 ⟨a, List.mem_cons_self a rest, rfl⟩)
      have h2 : k ∉ rest.map Session.id := fun hr => hk (List.mem_cons_of_mem _ hr)
      rw [List.foldl_cons, ih _ k h2, monitorStep_sessions_ne fs chat acc a k h1]

/-- Characterization of the chat-scan fold on the sessions map: a scanned
session's entry is flipped to verified exactly when `shouldVerify` holds,
and is untouched otherwise. -/
theorem monitorFold_sessions (fs : String → Bool)
    (chat : String → Option (List ChatMessage)) :
    ∀ (l : List Session) (acc : Storage × List Event) (s : Session),
      s ∈ l → (l.map Session.id).Nodup →
      getA ((l.foldl (monitorStep fs chat) acc)).1.sessions s.id =
        (if shouldVerify fs chat s then some { s with verified := true }
         else getA acc.1.sessions s.id) := by
  intro l
  induction l with
  | nil =>
      intro _ _ h
      cases h
  | cons a rest ih =>
      intro acc s hs hnd
      simp only [List.map_cons, List.nodup_cons] at hnd
      rw [List.foldl_cons]
      rcases List.mem_cons.1 hs with h | h
      · subst h
        rw [monitorFold_sessions_notmem fs chat rest _ s.id hnd.1,
          monitorStep_sessions_self]
      · have hne : a.id ≠ s.id := by
          intro he
          exact hnd.1 (he ▸ List.mem_map.2 ⟨s, h, rfl⟩)
        rw [ih _ s h hnd.2, monitorStep_sessions_ne fs chat acc a s.id hne]

theorem monitorFold_events_notmem (fs : String → Bool)
    (chat : String → Option (List ChatMessage)) :
    ∀ (l : List Session) (acc : Storage × List Event) (k : String),
      k ∉ l.map Session.id →
      countWh ((l.foldl (monitorStep fs chat) acc)).2 k "verified" =
        countWh acc.2 k "verified" := by
  intro l
  induction l with
  | nil =>
      intro acc k _
      rfl
  | cons a rest ih =>
      intro acc k hk
      have h1 : a.id ≠ k := by
        intro he
        exact hk (he ▸ List.mem_map.2 ⟨a, List.mem_cons_self a rest, rfl⟩)
      have h2 : k ∉ rest.map Session.id := fun hr => hk (List.mem_cons_of_mem _ hr)
      rw [List.foldl_cons, ih _ k h2, monitorStep_events, countWh_append]
      by_cases hv : shouldVerify fs chat a = true
      · rw [if_pos hv,
          countWh_ssw_ne { a with verified := true } k "verified" "verified" h1]
        simp
      · rw [if_neg hv]
        simp [countWh]

/-- Characterization of the chat-scan fold on the event trace: each
scanned session contributes exactly one "verified" webhook when it is
verified and has a callback, and none otherwise. -/
theorem monitorFold_events (fs : String → Bool)
    (chat : String → Option (List ChatMessage)) :
    ∀ (l : List Session) (acc : Storage × List Event) (s : Session),
      s ∈ l → (l.map Session.id).Nodup →
      countWh ((l.foldl (monitorStep fs chat) acc)).2 s.id "verified" =
        countWh acc.2 s.id "verified" +
          (if shouldVerify fs chat s && s.callbackUrl.isSome then 1 else 0) := by
  intro l
  induction l with
  | nil =>
      intro _ _ h
      cases h
  | cons a rest ih =>
      intro acc s hs hnd
      simp only [List.map_cons, List.nodup_cons] at hnd
      rw [List.foldl_cons]
      rcases List.mem_cons.1 hs with h | h
      · subst h
        rw [monitorFold_events_notmem fs chat rest _ s.id hnd.1,
          monitorStep_events, countWh_append]
        by_cases hv : shouldVerify fs chat s = true
        · rw [if_pos hv]
          have : countWh (sendSessionWebhook { s with verified := true } "verified")
              s.id "verified" = if s.callbackUrl.isSome then 1 else 0 :=
            countWh_ssw_self { s with verified := true } "verified"
          rw [this]
          simp [hv]
        · rw [if_neg hv]
          simp only [Bool.and_eq_true] at *
          simp [countWh, hv]
      · have hne : a.id ≠ s.id := by
          intro he
          exact hnd.1 (he ▸ List.mem_map.2 ⟨s, h, rfl⟩)
        rw [ih _ s h hnd.2, monitorStep_events, countWh_append]
        by_cases hv : shouldVerify fs chat a = true
        · rw [if_pos hv,
            countWh_ssw_ne { a with verified := true } s.id "verified" "verified" hne]
          simp
        · rw [if_neg hv]
          simp [countWh]

/-- The friend-cache prefill before the scan loop leaves the sessions map
untouched. -/
theorem prefill_sessions (allFriends : String → Bool) :
    ∀ (uncached : List String) (st : Storage),
      ((uncached.foldl
        (fun acc uid => { acc with friends := putA acc.friends uid (allFriends uid) })
        st)).sessions = st.sessions := by
  intro uncached
  induction uncached with
  | nil =>
      intro st
      rfl
  | cons u rest ih =>
      intro st
      rw [List.foldl_cons, ih]

theorem active_ids_nodup (st : Storage) (now : Nat)
    (hnd : (st.sessions.map Prod.fst).Nodup)
    (hkeym : ∀ p ∈ st.sessions, Session.id p.2 = p.1) :
    ((alarmPartition st now).1.map Session.id).Nodup := by
  have hall : (st.sessions.map Prod.snd).map Session.id = st.sessions.map Prod.fst :=
    values_ids_eq_keys st.sessions hkeym
  have hsub : List.Sublist (alarmPartition st now).1 (st.sessions.map Prod.snd) := by
    simp only [alarmPartition]
    exact List.filter_sublist _
  have : List.Sublist ((alarmPartition st now).1.map Session.id)
      ((st.sessions.map Prod.snd).map Session.id) := hsub.map _
  rw [hall] at this
  exact List.Nodup.sublist this hnd

/-- Characterization of one `monitorChatMessages` run on a scanned
session: its stored record is flipped to verified exactly when
`shouldVerify` holds, and it contributes one "verified" webhook exactly
when it is verified and has a callback. -/
theorem monitorChat_sessions_char (st : Storage) (sessions : List Session)
    (allFriends : String → Bool) (chat : String → Option (List ChatMessage))
    (s : Session) (hs : s ∈ sessions) (hids : (sessions.map Session.id).Nodup) :
    getA (monitorChatMessages st sessions allFriends chat).1.sessions s.id =
      (if shouldVerify (friendStatusOf st allFriends) chat s
       then some { s with verified := true } else getA st.sessions s.id) ∧
    countWh (monitorChatMessages st sessions allFriends chat).2 s.id "verified" =
      (if shouldVerify (friendStatusOf st allFriends) chat s && s.callbackUrl.isSome
       then 1 else 0) := by
  have hne : sessions.isEmpty = false := by
    cases hl : sessions with
    | nil =>
        rw [hl] at hs
        cases hs
    | cons a as => rfl
  simp only [monitorChatMessages, hne, Bool.false_eq_true, if_false]
  constructor
  · rw [monitorFold_sessions _ _ _ _ s hs hids]
    rw [prefill_sessions]
  · rw [monitorFold_events _ _ _ _ s hs hids]
    simp [countWh]

/-- C1 (amended): a session in the tick's active snapshot (unverified,
not yet expired) ends the chat scan verified if and only if its
identity's friend status (the cached value, or the value freshly derived
from the friend list and cached) is true, the chat read succeeds, and
some message of the conversation — from any source; the scanner never
inspects `sourceId`, so outbound/bot messages count too — has a nonempty
text whose uppercasing contains the session's code; and it yields exactly
one "verified" webhook when this holds and it has a callback URL, zero
otherwise (the scan stops at the first matching message). -/
theorem monitorChat_verified_iff (st : Storage) (now : Nat)
    (allFriends : String → Bool) (chat : String → Option (List ChatMessage))
    (s : Session)
    (hnd : (st.sessions.map Prod.fst).Nodup)
    (hkeym : ∀ p ∈ st.sessions, Session.id p.2 = p.1)
    (hs : s ∈ (alarmPartition st now).1) :
    (getA (monitorChatMessages st (alarmPartition st now).1 allFriends chat).1.sessions s.id
        = some { s with verified := true } ↔
      shouldVerify (friendStatusOf st allFriends) chat s = true) ∧
    countWh (monitorChatMessages st (alarmPartition st now).1 allFriends chat).2 s.id
        "verified" =
      (if shouldVerify (friendStatusOf st allFriends) chat s && s.callbackUrl.isSome
       then 1 else 0) ∧
    s.verified = false ∧ now < s.expiresAt := by
  have hs' := hs
  simp only [alarmPartition, List.mem_filter, Bool.and_eq_true, Bool.not_eq_true',
    decide_eq_true_eq] at hs'
  obtain ⟨hmem, hver, hexp⟩ := hs'
  have hget : getA st.sessions s.id = some s := by
    obtain ⟨p, hp, hps⟩ := List.mem_map.1 hmem
    obtain ⟨k, v⟩ := p
    have hik := hkeym (k, v) hp
    rw [← hps]
    show getA st.sessions v.id = some v
    rw [show Session.id v = k from hik]
    exact getA_of_mem_nodup _ _ _ hnd hp
  have hids := active_ids_nodup st now hnd hkeym
  obtain ⟨hss, hevs⟩ :=
    monitorChat_sessions_char st (alarmPartition st now).1 allFriends chat s hs hids
  refine ⟨?_, hevs, hver, hexp⟩
  rw [hss]
  by_cases hv : shouldVerify (friendStatusOf st allFriends) chat s = true
  · simp [hv]
  · rw [if_neg hv, hget]
    constructor
    · intro h
      exfalso
      have h2 := Option.some.inj h
      have h3 := congrArg Session.verified h2
      rw [hver] at h3
      exact Bool.noConfusion h3
    · intro h
      exact absurd h hv

/-- The store used for the C1 theorems: one active unverified session for
identity `u1` with code `ABC123`, cached as a friend. -/
def c1Store : Storage :=
  ⟨[("s1", ⟨"s1", "u1", "ABC123", false, 100, 0, none⟩)], [("u1", "s1")],
   [("u1", true)], []⟩

/-- C1 counterexample: every message of the conversation has a source
other than the session's identity (`"bot-self" ≠ "u1"`), yet the scan
still flips the session to verified, because `monitorChatMessages` never
compares `msg.sourceId` with the session's identity — contradicting
"outbound/bot messages ignored; the source must equal the session's
identity". -/
theorem monitorChat_ignores_source_counterexample :
    (∀ m ∈ [ChatMessage.mk "bot-self" "code: abc123"],
      m.sourceId ≠ "u1") ∧
    getA (monitorChatMessages c1Store (alarmPartition c1Store 50).1
        (fun _ => false) (fun _ => some [ChatMessage.mk "bot-self" "code: abc123"])).1.sessions
        "s1" =
      some ⟨"s1", "u1", "ABC123", true, 100, 0, none⟩ := by decide

/-- A witness for C1 (amended) on the concrete store: the session is
scanned, the match condition holds, and the stored record flips to
verified with zero webhooks (no callback URL). -/
theorem monitorChat_verified_iff_witness :
    ((Storage.sessions c1Store).map Prod.fst).Nodup ∧
    (⟨"s1", "u1", "ABC123", false, 100, 0, none⟩ : Session) ∈
      (alarmPartition c1Store 50).1 ∧
    ((getA (monitorChatMessages c1Store (alarmPartition c1Store 50).1
        (fun _ => false) (fun _ => some [ChatMessage.mk "bot-self" "code: abc123"])).1.sessions
        "s1" = some { (⟨"s1", "u1", "ABC123", false, 100, 0, none⟩ : Session) with
          verified := true } ↔
      shouldVerify (friendStatusOf c1Store (fun _ => false))
        (fun _ => some [ChatMessage.mk "bot-self" "code: abc123"])
        ⟨"s1", "u1", "ABC123", false, 100, 0, none⟩ = true) ∧
    countWh (monitorChatMessages c1Store (alarmPartition c1Store 50).1
        (fun _ => false) (fun _ => some [ChatMessage.mk "bot-self" "code: abc123"])).2
        "s1" "verified" =
      (if shouldVerify (friendStatusOf c1Store (fun _ => false))
          (fun _ => some [ChatMessage.mk "bot-self" "code: abc123"])
          ⟨"s1", "u1", "ABC123", false, 100, 0, none⟩ &&
          (Option.isSome (none : Option String)) then 1 else 0) ∧
    (⟨"s1", "u1", "ABC123", false, 100, 0, none⟩ : Session).verified = false ∧
    50 < (⟨"s1", "u1", "ABC123", false, 100, 0, none⟩ : Session).expiresAt) :=
  ⟨by decide, by decide,
    monitorChat_verified_iff c1Store 50 (fun _ => false)
      (fun _ => some [ChatMessage.mk "bot-self" "code: abc123"])
      ⟨"s1", "u1", "ABC123", false, 100, 0, none⟩
      (by decide) (by decide) (by decide)⟩

end GeoVerif
